import Mathlib

/-!
# Verification of the Jaculus storage session and RTOS timer bridge

Shallow embedding of the two device-side components:

* `CommandImplementation` from
  `runtime/components/jacStorage/include/uploaderFeatures/commandImplementation.hpp`
  (the storage command session: pull, remove, push start/chunk/commit, stats);
* `RtosTimers` from
  `runtime/components/jacMachine/include/features/rtosTimers.hpp`
  (timer creation/deletion, the firing protocol and the deferred drain).

Modelling conventions:

* Bytes are `Nat` values; theorems carry `< 256` bounds where the C code
  relies on `unsigned char` range.
* The filesystem is a flat association list from absolute path strings to
  file contents; `open(O_RDONLY)` fails exactly when the path is absent,
  `remove` fails exactly when the path is absent, `rename` moves the whole
  contents atomically.  Failures of the external collaborators that are not
  determined by that state (`ensurePath`, an externally-caused `rename`
  failure, a failed or short `write`) are injected through explicit
  parameters, mirroring the errno-style outcomes the code branches on.
* `assert(...)` failures are modelled as a `fatal` flag on the operation
  result (the session aborts instead of reporting through the sink).
* The output sink calls `yieldString` / `yieldBuffer` / `yieldError` are
  recorded as an ordered fragment list.
* `mbedtls_base64_encode` is modelled by `base64Encode`, byte-for-byte in
  the shift/mask arithmetic of the mbedtls implementation; `base64Decode`
  is an ordinary base64 decoder used to state the round-trip claims.
-/

/-! ## Base64 (model of mbedtls_base64_encode, plus a decoder) -/

def b64Table : List Char :=
  "ABCDEFGHIJKLMNOPQRSTUVWXYZabcdefghijklmnopqrstuvwxyz0123456789+/".toList

def b64Char (v : Nat) : Char := b64Table.getD v 'A'

def b64ValAux : List Char → Char → Option Nat
  | [], _ => none
  | x :: rest, c => if x = c then some 0 else (b64ValAux rest c).map (· + 1)

def b64Val (c : Char) : Option Nat := b64ValAux b64Table c

/-- Model of `mbedtls_base64_encode`: 3 input bytes become 4 alphabet
characters; a short trailing group is padded with `=`.  The arithmetic
mirrors the C shifts and masks (`C1 >> 2`, `((C1 & 3) << 4) + (C2 >> 4)`,
`((C2 & 15) << 2) + (C3 >> 6)`, `C3 & 0x3F`). -/
def base64Encode : List Nat → List Char
  | [] => []
  | a :: b :: c :: rest =>
      b64Char (a / 4) :: b64Char (a % 4 * 16 + b / 16) ::
      b64Char (b % 16 * 4 + c / 64) :: b64Char (c % 64) :: base64Encode rest
  | [a] => [b64Char (a / 4), b64Char (a % 4 * 16), '=', '=']
  | [a, b] => [b64Char (a / 4), b64Char (a % 4 * 16 + b / 16), b64Char (b % 16 * 4), '=']

/-- Decode one 4-character base64 group, honouring `=` padding. -/
def decode4 (c1 c2 c3 c4 : Char) : Option (List Nat) :=
  if c3 = '=' then
    if c4 = '=' then
      (b64Val c1).bind (fun v1 => (b64Val c2).map (fun v2 => [v1 * 4 + v2 / 16]))
    else none
  else if c4 = '=' then
    (b64Val c1).bind (fun v1 => (b64Val c2).bind (fun v2 =>
      (b64Val c3).map (fun v3 => [v1 * 4 + v2 / 16, v2 % 16 * 16 + v3 / 4])))
  else
    (b64Val c1).bind (fun v1 => (b64Val c2).bind (fun v2 =>
      (b64Val c3).bind (fun v3 => (b64Val c4).map (fun v4 =>
        [v1 * 4 + v2 / 16, v2 % 16 * 16 + v3 / 4, v3 % 4 * 64 + v4]))))

/-- Base64 decoder: groups of four characters, last group may be padded. -/
def base64Decode : List Char → Option (List Nat)
  | [] => some []
  | c1 :: c2 :: c3 :: c4 :: rest =>
      (decode4 c1 c2 c3 c4).bind (fun bs =>
        (base64Decode rest).map (fun rs => bs ++ rs))
  | _ => none

/-! ## Association lists (flat filesystem namespace, duk object slots) -/

def alGet {κ α : Type} [DecidableEq κ] : List (κ × α) → κ → Option α
  | [], _ => none
  | (k, v) :: rest, key => if k = key then some v else alGet rest key

def alErase {κ α : Type} [DecidableEq κ] : List (κ × α) → κ → List (κ × α)
  | [], _ => []
  | (k, v) :: rest, key =>
      if k = key then alErase rest key else (k, v) :: alErase rest key

def alSet {κ α : Type} [DecidableEq κ] (m : List (κ × α)) (key : κ) (v : α) :
    List (κ × α) :=
  (key, v) :: alErase m key

def alCountKey {κ α : Type} [DecidableEq κ] : List (κ × α) → κ → Nat
  | [], _ => 0
  | (k, _) :: rest, key => (if k = key then 1 else 0) + alCountKey rest key

/-! ## Storage session data model

`Session` models one `CommandImplementation` instance: the filesystem the
operations act on, whether `_workingFd` is an open handle (`≥ 0`), and the
`_finished` flag. -/

/-- One fragment written to the output sink: `yieldString`, `yieldBuffer`
(the base64 bytes emitted by `doPull`) or `yieldError`. -/
inductive Frag : Type where
  | str : String → Frag
  | buf : List Char → Frag
  | err : String → Frag
deriving DecidableEq, Repr

abbrev FsMap : Type := List (String × List Nat)

structure Session : Type where
  files : FsMap
  workingOpen : Bool
  finished : Bool
deriving DecidableEq, Repr

/-- Result of one storage operation: the session afterwards, the ordered
sink output, and whether an `assert` aborted the operation fatally. -/
structure OpResult : Type where
  session : Session
  out : List Frag
  fatal : Bool
deriving DecidableEq, Repr

/-- `getStoragePrefix()`: fixed absolute storage root (external constant). -/
def storageRoot : String := "/data"

/-- `fsPath`: absolute filenames pass through, relative ones get a slash
inserted after the root. -/
def fsPath (filename : String) : String :=
  if filename.data.head? = some '/' then storageRoot ++ filename
  else storageRoot ++ "/" ++ filename

/-- `workingFilename()`: the fixed temporary upload staging path. -/
def workingFilename : String := storageRoot ++ "/__tmp.txt"

/-- Model of `std::strerror(ENOENT)`, the errno text for a missing path. -/
def enoentText : String := "No such file or directory"

/-- Generic errno text for an injected I/O failure (`write`, `ensurePath`,
externally-caused `rename` failure). -/
def ioErrText : String := "I/O error"

def CHUNK_SIZE : Nat := 1023

/-- The `doPull` read loop: `while ((bytesRead = read(fd, buf, 1023)))`,
each full or final short chunk base64-encoded independently and emitted
through `yieldBuffer` immediately. -/
def pullLoop (data : List Nat) : List Frag :=
  if data = [] then []
  else Frag.buf (base64Encode (data.take CHUNK_SIZE)) ::
    pullLoop (data.drop CHUNK_SIZE)
termination_by data.length
decreasing_by
  simp only [List.length_drop]
  have : 0 < data.length := List.length_pos.mpr (by assumption)
  simp only [CHUNK_SIZE]
  omega

/-- `doPull`: open read-only (fails exactly when the path is absent, one
error fragment, return); otherwise stream the chunk loop and terminate
with a newline. -/
def doPull (st : Session) (filename : String) : OpResult :=
  match alGet st.files (fsPath filename) with
  | none => ⟨st, [Frag.err enoentText], false⟩
  | some data => ⟨st, pullLoop data ++ [Frag.str ("\n")], false⟩

/-- `doRemove`: delete the path (fails exactly when absent, reported as an
error fragment first), then emit `"OK\n"` unconditionally. -/
def doRemove (st : Session) (filename : String) : OpResult :=
  match alGet st.files (fsPath filename) with
  | none => ⟨st, [Frag.err enoentText, Frag.str ("OK\n")], false⟩
  | some _ =>
      ⟨{ st with files := alErase st.files (fsPath filename) },
        [Frag.str ("OK\n")], false⟩

/-- `startFilePush`: close any previous handle, then open the working file
with `O_TRUNC | O_WRONLY | O_CREAT` (creation always succeeds in the
model filesystem). -/
def startFilePush (st : Session) : OpResult :=
  ⟨{ st with files := alSet st.files workingFilename [],
             workingOpen := true }, [], false⟩

/-- `addFileChunk`: `assert(_workingFd >= 0)`; then `write` the buffer.
`written = none` models `write` returning a negative value (error
fragment emitted); `written = some n` models `n` bytes actually written
(`n < size` is a short write, which the code does not check for). The
handle is never closed here. -/
def addFileChunk (st : Session) (buffer : List Nat) (written : Option Nat) :
    OpResult :=
  if st.workingOpen = false then ⟨st, [], true⟩
  else
    match written with
    | none => ⟨st, [Frag.err ioErrText], false⟩
    | some n =>
        ⟨{ st with files :=
            match alGet st.files workingFilename with
            | some old => alSet st.files workingFilename (old ++ buffer.take n)
            | none => st.files }, [], false⟩

/-- Outcomes of the external collaborator calls inside `commitFilePush`
that are not determined by the model filesystem state: `ensurePath`
(directory creation) and an externally-caused `rename` failure. -/
structure CommitEnv : Type where
  ensureOk : Bool
  renameOk : Bool
deriving DecidableEq, Repr

/-- `commitFilePush`: close the pending handle; `ensurePath` (error
fragment on failure, no early return); `remove` the destination ignoring
failure; sanity `open(O_RDONLY)` of the working file with
`assert(fd >= 0)` — fatal when the working file is missing; `rename` the
working file onto the destination (error fragment on failure); finally
emit `"OK\n"` unconditionally. -/
def commitFilePush (st : Session) (filename : String) (env : CommitEnv) :
    OpResult :=
  let path := fsPath filename
  let errs1 : List Frag :=
    if env.ensureOk then [] else [Frag.err ("Cannot create path " ++ path)]
  let files2 := alErase st.files path
  match alGet files2 workingFilename with
  | none => ⟨⟨files2, false, st.finished⟩, errs1, true⟩
  | some staged =>
      if env.renameOk then
        ⟨⟨alSet (alErase files2 workingFilename) path staged, false, st.finished⟩,
          errs1 ++ [Frag.str ("OK\n")], false⟩
      else
        ⟨⟨files2, false, st.finished⟩,
          errs1 ++ [Frag.err ("Cannot finalize push: " ++ ioErrText),
            Frag.str ("OK\n")], false⟩

/-- The filesystem contents observed at each step boundary of
`commitFilePush`: after closing the handle, after `ensurePath`, after the
destination `remove`, after the sanity re-open (absent when the `assert`
aborts there), and after the `rename` attempt. -/
def commitFsTrace (files : FsMap) (filename : String) (env : CommitEnv) :
    List FsMap :=
  let path := fsPath filename
  let files2 := alErase files path
  match alGet files2 workingFilename with
  | none => [files, files, files2]
  | some staged =>
      if env.renameOk then
        [files, files, files2, files2,
          alSet (alErase files2 workingFilename) path staged]
      else
        [files, files, files2, files2, files2]

/-- `f_getfree` geometry: free clusters, data clusters (`n_fatent - 2`),
cluster size and sector size. -/
structure FsGeometry : Type where
  freeClusters : Nat
  totalClusters : Nat
  csize : Nat
  sectorSize : Nat
deriving DecidableEq, Repr

/-- `doStats`: if the capacity query fails, a single error fragment and an
early return; otherwise `"<free> <total>\n"`. -/
def doStats (st : Session) (geo : Option FsGeometry) : OpResult :=
  match geo with
  | none => ⟨st, [Frag.err ("Cannot determine free space")], false⟩
  | some g =>
      ⟨st, [Frag.str (toString (g.freeClusters * g.csize * g.sectorSize) ++ " "
        ++ toString (g.totalClusters * g.csize * g.sectorSize) ++ "\n")], false⟩

/-- `performExit`: emit `"OK\n"` and set `_finished`. -/
def performExit (st : Session) : OpResult :=
  ⟨{ st with finished := true }, [Frag.str ("OK\n")], false⟩

/-- A successful upload environment: `ensurePath` and `rename` succeed. -/
def happyEnv : CommitEnv := ⟨true, true⟩

/-- The full upload sequence of claim C1: `startFilePush`, one
`addFileChunk` per chunk (each write complete), then `commitFilePush`. -/
def pushSequence (st : Session) (cs : List (List Nat)) (f : String) : OpResult :=
  commitFilePush
    (cs.foldl (fun s c => (addFileChunk s c (some c.length)).session)
      (startFilePush st).session)
    f happyEnv

/-- The characters an output fragment contributes to the pulled stream
(error fragments go to the error channel, not the data stream). -/
def fragPayload : Frag → List Char
  | Frag.str s => s.data
  | Frag.buf b => b
  | Frag.err _ => []

def payloadChars (l : List Frag) : List Char := (l.map fragPayload).flatten

def stripTrailingNewline (l : List Char) : List Char :=
  if l.getLast? = some '\n' then l.dropLast else l

/-- Spec-side decomposition of a file into successive fixed 1023-byte
chunks (the last one possibly short). -/
def chunksOf (data : List Nat) : List (List Nat) :=
  if data = [] then []
  else data.take CHUNK_SIZE :: chunksOf (data.drop CHUNK_SIZE)
termination_by data.length
decreasing_by
  simp only [List.length_drop]
  have : 0 < data.length := List.length_pos.mpr (by assumption)
  simp only [CHUNK_SIZE]
  omega

/-! ## Timer bridge data model

`TimerState` models the `RtosTimers` feature: the live native FreeRTOS
timers (handle value, interpreted as the integer timer id, mapped to its
`uxAutoReload` mode), the `<stash>.timerSlot` registry mapping timer id to
the script callback (callbacks are modelled as opaque `Nat` references),
the deferred-invocation queue filled by `schedule` from the firing context,
and the log of callbacks the scripting loop has invoked. -/

structure TimerState : Type where
  timers : List (Nat × Bool)
  registry : List (Nat × Nat)
  queue : List (Nat × Bool)
  calls : List Nat
deriving DecidableEq, Repr

def timerErrText : String := "Timers with no period are not implemented yet"

/-- `createTimer(period, oneShot)`: throws for a zero period before any
native timer exists; otherwise `xTimerCreate` with auto-reload =
`!oneShot`, returning the fresh handle `h`. -/
def createTimer (st : TimerState) (period : Nat) (oneShot : Bool) (h : Nat) :
    Except String (Nat × TimerState) :=
  if period = 0 then Except.error timerErrText
  else Except.ok (h, { st with timers := alSet st.timers h (!oneShot) })

/-- `dukCreateTimer`: validate arguments, `createTimer` (a zero period
propagates the error with no state change), `xTimerStart`, then store the
callback under `slot[timerId]` and return the id. -/
def dukCreateTimer (st : TimerState) (period : Nat) (oneShot : Bool)
    (cb : Nat) (h : Nat) : TimerState × Except String Nat :=
  match createTimer st period oneShot h with
  | Except.error e => (st, Except.error e)
  | Except.ok (t, st1) =>
      ({ st1 with registry := alSet st1.registry t cb }, Except.ok t)

/-- `timerCallback<AutoReload>` (the firing context): `schedule` a call of
`dukInvokeTimer(timerId, !AutoReload)` into the deferred queue; for a
one-shot timer, `xTimerDelete` the native resource eagerly. -/
def timerCallback (st : TimerState) (h : Nat) : TimerState :=
  match alGet st.timers h with
  | none => st
  | some autoReload =>
      let st1 := { st with queue := st.queue ++ [(h, !autoReload)] }
      if autoReload then st1
      else { st1 with timers := alErase st1.timers h }

/-- `dukInvokeTimer(timerId, cleanup)` (drained by the scripting loop):
look up `slot[timerId]`; `duk_require_callable` raises a script error when
the entry is absent (no call, no cleanup, state unchanged); otherwise
invoke the callback with no arguments and, only if `cleanup`, delete the
registry entry afterwards. -/
def dukInvokeTimer (st : TimerState) (timerId : Nat) (cleanup : Bool) :
    TimerState × Except String Unit :=
  match alGet st.registry timerId with
  | none => (st, Except.error ("callable required"))
  | some cb =>
      let st1 := { st with calls := st.calls ++ [cb] }
      if cleanup then
        ({ st1 with registry := alErase st1.registry timerId }, Except.ok ())
      else (st1, Except.ok ())

/-- `dukDeleteTimer(timerId)`: only when the registry has the id, delete
the registry entry and the native timer; otherwise do nothing at all. -/
def dukDeleteTimer (st : TimerState) (timerId : Nat) : TimerState :=
  if (alGet st.registry timerId).isSome then
    { st with registry := alErase st.registry timerId,
              timers := alErase st.timers timerId }
  else st

/-- One scripting-loop drain step: dequeue the front deferred invocation
(if any) and run `dukInvokeTimer` on it. -/
def drainOne (st : TimerState) : TimerState × Option (Except String Unit) :=
  match st.queue with
  | [] => (st, none)
  | (id, cl) :: rest =>
      let r := dukInvokeTimer { st with queue := rest } id cl
      (r.1, some r.2)

/-- One firing of timer `h` followed by one drain step. -/
def fireDrain (st : TimerState) (h : Nat) : TimerState :=
  (drainOne (timerCallback st h)).1

def iterateFireDrain (st : TimerState) (h : Nat) : Nat → TimerState
  | 0 => st
  | n + 1 => iterateFireDrain (fireDrain st h) h n

/-! ## Helper lemmas: association lists -/

theorem alGet_alErase_self {κ α : Type} [DecidableEq κ] :
    ∀ (m : List (κ × α)) (k : κ), alGet (alErase m k) k = none
  | [], _ => rfl
  | (k', _) :: rest, k => by
      by_cases h : k' = k
      · simpa [alErase, h] using alGet_alErase_self rest k
      · simpa [alErase, alGet, h] using alGet_alErase_self rest k

theorem alGet_alErase_ne {κ α : Type} [DecidableEq κ] :
    ∀ (m : List (κ × α)) (k k' : κ), k ≠ k' →
      alGet (alErase m k) k' = alGet m k'
  | [], _, _, _ => rfl
  | (k0, v) :: rest, k, k', hne => by
      by_cases h : k0 = k
      · have hk0 : k0 ≠ k' := by rw [h]; exact hne
        simp only [alErase, if_pos h, alGet, if_neg hk0]
        exact alGet_alErase_ne rest k k' hne
      · by_cases h' : k0 = k'
        · simp only [alErase, if_neg h, alGet, if_pos h']
        · simp only [alErase, if_neg h, alGet, if_neg h']
          exact alGet_alErase_ne rest k k' hne

theorem alGet_alSet_self {κ α : Type} [DecidableEq κ]
    (m : List (κ × α)) (k : κ) (v : α) : alGet (alSet m k v) k = some v := by
  simp [alSet, alGet]

theorem alGet_alSet_ne {κ α : Type} [DecidableEq κ]
    (m : List (κ × α)) (k k' : κ) (v : α) (h : k ≠ k') :
    alGet (alSet m k v) k' = alGet m k' := by
  simp only [alSet, alGet, if_neg h]
  exact alGet_alErase_ne m k k' h

/-! ## Helper lemmas: base64 round trip -/

theorem b64Table_length : b64Table.length = 64 := by decide

theorem b64Char_ne_pad (v : Nat) : b64Char v ≠ '=' := by
  by_cases h : v < 64
  · have hall : ∀ w : Fin 64, b64Char w.val ≠ '=' := by decide
    exact hall ⟨v, h⟩
  · unfold b64Char
    rw [List.getD_eq_default]
    · decide
    · rw [b64Table_length]; omega

theorem b64Val_b64Char (v : Nat) (h : v < 64) : b64Val (b64Char v) = some v := by
  have hall : ∀ w : Fin 64, b64Val (b64Char w.val) = some w.val := by decide
  exact hall ⟨v, h⟩

theorem decode4_encode3 (a b c : Nat) (ha : a < 256) (hb : b < 256)
    (hc : c < 256) :
    decode4 (b64Char (a / 4)) (b64Char (a % 4 * 16 + b / 16))
      (b64Char (b % 16 * 4 + c / 64)) (b64Char (c % 64)) = some [a, b, c] := by
  unfold decode4
  rw [if_neg (b64Char_ne_pad _), if_neg (b64Char_ne_pad _)]
  rw [b64Val_b64Char (a / 4) (by omega),
      b64Val_b64Char (a % 4 * 16 + b / 16) (by omega),
      b64Val_b64Char (b % 16 * 4 + c / 64) (by omega),
      b64Val_b64Char (c % 64) (by omega)]
  simp only [Option.some_bind, Option.map_some']
  have h1 : a / 4 * 4 + (a % 4 * 16 + b / 16) / 16 = a := by omega
  have h2 : (a % 4 * 16 + b / 16) % 16 * 16 + (b % 16 * 4 + c / 64) / 4 = b := by
    omega
  have h3 : (b % 16 * 4 + c / 64) % 4 * 64 + c % 64 = c := by omega
  rw [h1, h2, h3]

theorem decode4_encode2 (a b : Nat) (ha : a < 256) (hb : b < 256) :
    decode4 (b64Char (a / 4)) (b64Char (a % 4 * 16 + b / 16))
      (b64Char (b % 16 * 4)) '=' = some [a, b] := by
  unfold decode4
  rw [if_neg (b64Char_ne_pad _), if_pos rfl]
  rw [b64Val_b64Char (a / 4) (by omega),
      b64Val_b64Char (a % 4 * 16 + b / 16) (by omega),
      b64Val_b64Char (b % 16 * 4) (by omega)]
  simp only [Option.some_bind, Option.map_some']
  have h1 : a / 4 * 4 + (a % 4 * 16 + b / 16) / 16 = a := by omega
  have h2 : (a % 4 * 16 + b / 16) % 16 * 16 + b % 16 * 4 / 4 = b := by omega
  rw [h1, h2]

theorem decode4_encode1 (a : Nat) (ha : a < 256) :
    decode4 (b64Char (a / 4)) (b64Char (a % 4 * 16)) '=' '=' = some [a] := by
  unfold decode4
  rw [if_pos rfl, if_pos rfl]
  rw [b64Val_b64Char (a / 4) (by omega), b64Val_b64Char (a % 4 * 16) (by omega)]
  simp only [Option.some_bind, Option.map_some']
  have h1 : a / 4 * 4 + a % 4 * 16 / 16 = a := by omega
  rw [h1]

/-- Decoding the encoding of a 3-divisible block followed by anything
decodes the block and continues with the remainder. -/
theorem b64_decode_encode_append :
    ∀ (l : List Nat) (s : List Char), l.length % 3 = 0 →
      (∀ x ∈ l, x < 256) →
      base64Decode (base64Encode l ++ s) =
        (base64Decode s).map (fun r => l ++ r)
  | [], s, _, _ => by
      cases hs : base64Decode s <;> simp [base64Encode, hs]
  | [_], _, h, _ => by simp at h
  | [_, _], _, h, _ => by simp at h
  | a :: b :: c :: rest, s, h3, hx => by
      have hrest3 : rest.length % 3 = 0 := by
        simp only [List.length_cons] at h3; omega
      have ha : a < 256 := hx a (by simp)
      have hb : b < 256 := hx b (by simp)
      have hc : c < 256 := hx c (by simp)
      have hrest : ∀ y ∈ rest, y < 256 := fun y hy => hx y (by simp [hy])
      simp only [base64Encode, List.cons_append]
      simp only [base64Decode]
      rw [decode4_encode3 a b c ha hb hc,
          b64_decode_encode_append rest s hrest3 hrest]
      cases base64Decode s <;> simp

/-- Full round trip: decoding the (possibly padded) encoding of any byte
list returns exactly that list. -/
theorem b64_decode_encode :
    ∀ (l : List Nat), (∀ x ∈ l, x < 256) →
      base64Decode (base64Encode l) = some l
  | [], _ => rfl
  | [a], hx => by
      have ha : a < 256 := hx a (by simp)
      simp only [base64Encode, base64Decode]
      rw [decode4_encode1 a ha]
      rfl
  | [a, b], hx => by
      have ha : a < 256 := hx a (by simp)
      have hb : b < 256 := hx b (by simp)
      simp only [base64Encode, base64Decode]
      rw [decode4_encode2 a b ha hb]
      rfl
  | a :: b :: c :: rest, hx => by
      have ha : a < 256 := hx a (by simp)
      have hb : b < 256 := hx b (by simp)
      have hc : c < 256 := hx c (by simp)
      have hrest : ∀ y ∈ rest, y < 256 := fun y hy => hx y (by simp [hy])
      have henc : base64Encode (a :: b :: c :: rest)
          = base64Encode [a, b, c] ++ base64Encode rest := by
        simp [base64Encode]
      rw [henc, b64_decode_encode_append [a, b, c] (base64Encode rest) (by simp)
        (by intro y hy; simp at hy; rcases hy with h | h | h <;> simp [h, ha, hb, hc]),
        b64_decode_encode rest hrest]
      rfl

/-! ## Helper lemmas: pull loop, chunking and payload -/

theorem payloadChars_append (l1 l2 : List Frag) :
    payloadChars (l1 ++ l2) = payloadChars l1 ++ payloadChars l2 := by
  simp [payloadChars]

theorem payloadChars_cons (f : Frag) (l : List Frag) :
    payloadChars (f :: l) = fragPayload f ++ payloadChars l := by
  simp [payloadChars]

theorem strip_append_newline (x : List Char) :
    stripTrailingNewline (x ++ ['\n']) = x := by
  unfold stripTrailingNewline
  rw [List.getLast?_concat, if_pos rfl, List.dropLast_concat]

theorem pullLoop_nil : pullLoop [] = [] := by
  rw [pullLoop]; simp

theorem chunksOf_nil : chunksOf [] = [] := by
  rw [chunksOf]; simp

theorem decode_pullPayload_aux :
    ∀ (n : Nat) (data : List Nat), data.length ≤ n → (∀ x ∈ data, x < 256) →
      base64Decode (payloadChars (pullLoop data)) = some data := by
  intro n
  induction n with
  | zero =>
      intro data hlen _
      have hnil : data = [] := List.length_eq_zero.mp (by omega)
      subst hnil
      rw [pullLoop_nil]
      simp [payloadChars, base64Decode]
  | succ n ih =>
      intro data hlen hx
      rw [pullLoop]
      by_cases hnil : data = []
      · subst hnil
        simp [payloadChars, base64Decode]
      · rw [if_neg hnil]
        by_cases hdrop : data.drop CHUNK_SIZE = []
        · have htake : data.take CHUNK_SIZE = data :=
            List.take_of_length_le (List.drop_eq_nil_iff.mp hdrop)
          rw [hdrop, pullLoop_nil, htake, payloadChars_cons]
          simpa [payloadChars, fragPayload] using b64_decode_encode data hx
        · have hgt : CHUNK_SIZE < data.length := by
            by_contra hcon
            exact hdrop (List.drop_eq_nil_iff.mpr (by omega))
          have hlenTake : (data.take CHUNK_SIZE).length = CHUNK_SIZE := by
            rw [List.length_take]; omega
          have hmod : (data.take CHUNK_SIZE).length % 3 = 0 := by
            rw [hlenTake]; decide
          rw [payloadChars_cons]
          simp only [fragPayload]
          rw [b64_decode_encode_append (data.take CHUNK_SIZE) _ hmod
                (fun x hmem => hx x (List.take_subset _ _ hmem)),
              ih (data.drop CHUNK_SIZE)
                (by rw [List.length_drop]; simp only [CHUNK_SIZE] at hgt ⊢; omega)
                (fun x hmem => hx x (List.drop_subset _ _ hmem))]
          simp [List.take_append_drop]

theorem decode_pullPayload (data : List Nat) (hx : ∀ x ∈ data, x < 256) :
    base64Decode (payloadChars (pullLoop data)) = some data :=
  decode_pullPayload_aux data.length data (le_refl _) hx

theorem pullLoop_eq_chunksOf_aux :
    ∀ (n : Nat) (data : List Nat), data.length ≤ n →
      pullLoop data = (chunksOf data).map (fun c => Frag.buf (base64Encode c)) := by
  intro n
  induction n with
  | zero =>
      intro data hlen
      have hnil : data = [] := List.length_eq_zero.mp (by omega)
      subst hnil
      rw [pullLoop_nil, chunksOf_nil]
      rfl
  | succ n ih =>
      intro data hlen
      rw [pullLoop, chunksOf]
      by_cases hnil : data = []
      · simp [hnil]
      · rw [if_neg hnil, if_neg hnil, List.map_cons,
          ih (data.drop CHUNK_SIZE)
            (by
              rw [List.length_drop]
              have hpos : 0 < data.length := List.length_pos.mpr hnil
              simp only [CHUNK_SIZE]
              omega)]

theorem pullLoop_eq_chunksOf (data : List Nat) :
    pullLoop data = (chunksOf data).map (fun c => Frag.buf (base64Encode c)) :=
  pullLoop_eq_chunksOf_aux data.length data (le_refl _)

theorem chunksOf_flatten_aux :
    ∀ (n : Nat) (data : List Nat), data.length ≤ n →
      (chunksOf data).flatten = data := by
  intro n
  induction n with
  | zero =>
      intro data hlen
      have hnil : data = [] := List.length_eq_zero.mp (by omega)
      subst hnil
      rw [chunksOf_nil]
      rfl
  | succ n ih =>
      intro data hlen
      rw [chunksOf]
      by_cases hnil : data = []
      · simp [hnil]
      · rw [if_neg hnil, List.flatten_cons,
          ih (data.drop CHUNK_SIZE)
            (by
              rw [List.length_drop]
              have hpos : 0 < data.length := List.length_pos.mpr hnil
              simp only [CHUNK_SIZE]
              omega),
          List.take_append_drop]

theorem chunksOf_flatten (data : List Nat) : (chunksOf data).flatten = data :=
  chunksOf_flatten_aux data.length data (le_refl _)

theorem chunksOf_mem_aux :
    ∀ (n : Nat) (data : List Nat), data.length ≤ n →
      ∀ c ∈ chunksOf data, c ≠ [] ∧ c.length ≤ CHUNK_SIZE := by
  intro n
  induction n with
  | zero =>
      intro data hlen c hc
      have hnil : data = [] := List.length_eq_zero.mp (by omega)
      subst hnil
      rw [chunksOf_nil] at hc
      simp at hc
  | succ n ih =>
      intro data hlen c hc
      rw [chunksOf] at hc
      by_cases hnil : data = []
      · simp [hnil] at hc
      · rw [if_neg hnil] at hc
        rcases List.mem_cons.mp hc with hhead | htail
        · subst hhead
          constructor
          · have hpos : 0 < data.length := List.length_pos.mpr hnil
            intro hcon
            have hlen0 := congrArg List.length hcon
            rw [List.length_take] at hlen0
            simp only [CHUNK_SIZE, List.length_nil] at hlen0
            omega
          · rw [List.length_take]; exact inf_le_left
        · exact ih (data.drop CHUNK_SIZE)
            (by
              rw [List.length_drop]
              have hpos : 0 < data.length := List.length_pos.mpr hnil
              simp only [CHUNK_SIZE]
              omega) c htail

theorem chunksOf_mem (data : List Nat) :
    ∀ c ∈ chunksOf data, c ≠ [] ∧ c.length ≤ CHUNK_SIZE :=
  chunksOf_mem_aux data.length data (le_refl _)

theorem chunksOf_ne_nil (data : List Nat) (h : data ≠ []) :
    chunksOf data ≠ [] := by
  rw [chunksOf]
  simp [h]

theorem chunksOf_dropLast_aux :
    ∀ (n : Nat) (data : List Nat), data.length ≤ n →
      ∀ c ∈ (chunksOf data).dropLast, c.length = CHUNK_SIZE := by
  intro n
  induction n with
  | zero =>
      intro data hlen c hc
      have hnil : data = [] := List.length_eq_zero.mp (by omega)
      subst hnil
      rw [chunksOf_nil] at hc
      simp at hc
  | succ n ih =>
      intro data hlen c hc
      rw [chunksOf] at hc
      by_cases hnil : data = []
      · simp [hnil] at hc
      · rw [if_neg hnil] at hc
        by_cases hdrop : data.drop CHUNK_SIZE = []
        · rw [hdrop, chunksOf_nil] at hc
          simp at hc
        · rw [List.dropLast_cons_of_ne_nil
            (chunksOf_ne_nil _ hdrop)] at hc
          rcases List.mem_cons.mp hc with hhead | htail
          · subst hhead
            have hgt : CHUNK_SIZE < data.length := by
              by_contra hcon
              exact hdrop (List.drop_eq_nil_iff.mpr (by omega))
            rw [List.length_take]; omega
          · exact ih (data.drop CHUNK_SIZE)
              (by
                rw [List.length_drop]
                have hpos : 0 < data.length := List.length_pos.mpr hnil
                simp only [CHUNK_SIZE]
                omega) c htail

theorem chunksOf_dropLast (data : List Nat) :
    ∀ c ∈ (chunksOf data).dropLast, c.length = CHUNK_SIZE :=
  chunksOf_dropLast_aux data.length data (le_refl _)

/-! ## Helper lemmas: the push sequence -/

theorem fold_addFileChunk :
    ∀ (cs : List (List Nat)) (st : Session) (acc : List Nat),
      st.workingOpen = true → alGet st.files workingFilename = some acc →
      (cs.foldl (fun s c => (addFileChunk s c (some c.length)).session)
          st).workingOpen = true ∧
      alGet (cs.foldl (fun s c => (addFileChunk s c (some c.length)).session)
          st).files workingFilename = some (acc ++ cs.flatten)
  | [], st, acc, hw, hf => by simp [hw, hf]
  | c :: cs, st, acc, hw, hf => by
      have hstep : (addFileChunk st c (some c.length)).session
          = { st with files := alSet st.files workingFilename (acc ++ c) } := by
        simp [addFileChunk, hw, hf, List.take_length]
      rw [List.foldl_cons, hstep]
      have hres := fold_addFileChunk cs
        { st with files := alSet st.files workingFilename (acc ++ c) }
        (acc ++ c) hw (alGet_alSet_self _ _ _)
      simpa [List.append_assoc] using hres

/-- A 3-divisible block encodes without any padding character. -/
theorem b64_encode_no_pad :
    ∀ (l : List Nat), l.length % 3 = 0 → '=' ∉ base64Encode l
  | [], _ => by simp [base64Encode]
  | [_], h => by simp at h
  | [_, _], h => by simp at h
  | a :: b :: c :: rest, h3 => by
      have hrest3 : rest.length % 3 = 0 := by
        simp only [List.length_cons] at h3; omega
      have ih := b64_encode_no_pad rest hrest3
      simp only [base64Encode, List.mem_cons]
      push_neg
      exact ⟨(b64Char_ne_pad _).symm, (b64Char_ne_pad _).symm,
        (b64Char_ne_pad _).symm, (b64Char_ne_pad _).symm, fun hmem => ih hmem⟩

/-! ## Claim theorems -/

/-- Claim C1: for every byte sequence (split into arbitrary chunks, each
byte in `unsigned char` range) uploaded via `startFilePush`, zero or more
`addFileChunk` calls and `commitFilePush filename`, a subsequent
`doPull filename` emits output whose base64 decoding — after concatenating
the emitted fragments and stripping the trailing newline — is exactly the
original bytes.  The destination name must not be the reserved working
file itself. -/
theorem C1_push_pull_roundtrip (files0 : FsMap) (w fin : Bool)
    (cs : List (List Nat)) (f : String)
    (hx : ∀ c ∈ cs, ∀ x ∈ c, x < 256)
    (hf : fsPath f ≠ workingFilename) :
    (pushSequence ⟨files0, w, fin⟩ cs f).fatal = false ∧
    base64Decode (stripTrailingNewline (payloadChars
      (doPull (pushSequence ⟨files0, w, fin⟩ cs f).session f).out))
      = some cs.flatten := by
  have hflatx : ∀ x ∈ cs.flatten, x < 256 := by
    intro x hxm
    rcases List.mem_flatten.mp hxm with ⟨c, hc, hxc⟩
    exact hx c hc x hxc
  have hstart : (startFilePush ⟨files0, w, fin⟩).session
      = ⟨alSet files0 workingFilename [], true, fin⟩ := rfl
  obtain ⟨hw2, hget2⟩ := fold_addFileChunk cs
    ⟨alSet files0 workingFilename [], true, fin⟩ []
    rfl (alGet_alSet_self _ _ _)
  rw [List.nil_append] at hget2
  set st2 := cs.foldl (fun s c => (addFileChunk s c (some c.length)).session)
    (⟨alSet files0 workingFilename [], true, fin⟩ : Session) with hst2
  have hget2' : alGet (alErase st2.files (fsPath f)) workingFilename
      = some cs.flatten := by
    rw [alGet_alErase_ne st2.files (fsPath f) workingFilename hf]
    exact hget2
  have hcommit : pushSequence ⟨files0, w, fin⟩ cs f
      = ⟨⟨alSet (alErase (alErase st2.files (fsPath f)) workingFilename)
            (fsPath f) cs.flatten, false, st2.finished⟩,
          [Frag.str ("OK\n")], false⟩ := by
    rw [pushSequence, hstart, ← hst2]
    simp only [commitFilePush, hget2', happyEnv]
    rfl
  rw [hcommit]
  constructor
  · rfl
  · have hpull : alGet (alSet (alErase (alErase st2.files (fsPath f))
        workingFilename) (fsPath f) cs.flatten) (fsPath f) = some cs.flatten :=
      alGet_alSet_self _ _ _
    simp only [doPull, hpull]
    rw [payloadChars_append]
    have hnl : payloadChars [Frag.str ("\n")] = ['\n'] := rfl
    rw [hnl, strip_append_newline]
    exact decode_pullPayload cs.flatten hflatx

theorem C1_push_pull_roundtrip_witness :
    (pushSequence ⟨[], false, false⟩ [[10, 20], [30]] "a.txt").fatal = false ∧
    base64Decode (stripTrailingNewline (payloadChars
      (doPull (pushSequence ⟨[], false, false⟩ [[10, 20], [30]] "a.txt").session
        "a.txt").out))
      = some ([[10, 20], [30]] : List (List Nat)).flatten :=
  C1_push_pull_roundtrip [] false false [[10, 20], [30]] "a.txt"
    (by decide) (by decide)

/-- Claim C3: `CHUNK_SIZE = 1023` is a multiple of 3; on open failure
`doPull` emits exactly one (error) fragment; for a readable file `doPull`
emits, in order, the independent base64 encoding of each successive
1023-byte chunk of the contents followed by a single trailing newline
(a lone newline for an empty file), where the chunks are nonempty, at
most 1023 bytes, recompose the file, and every chunk except possibly the
last is exactly 1023 bytes and encodes without padding characters. -/
theorem C3_pull_stream (st : Session) (f : String) :
    CHUNK_SIZE % 3 = 0 ∧
    (alGet st.files (fsPath f) = none →
      (doPull st f).out = [Frag.err enoentText]) ∧
    (∀ data, alGet st.files (fsPath f) = some data →
      (doPull st f).out
          = (chunksOf data).map (fun c => Frag.buf (base64Encode c))
              ++ [Frag.str ("\n")] ∧
      (chunksOf data).flatten = data ∧
      (∀ c ∈ chunksOf data, c ≠ [] ∧ c.length ≤ CHUNK_SIZE) ∧
      (∀ c ∈ (chunksOf data).dropLast,
        c.length = CHUNK_SIZE ∧ '=' ∉ base64Encode c) ∧
      (data = [] → (doPull st f).out = [Frag.str ("\n")])) := by
  refine ⟨by decide, ?_, ?_⟩
  · intro h
    simp [doPull, h]
  · intro data h
    refine ⟨?_, chunksOf_flatten data, chunksOf_mem data, ?_, ?_⟩
    · simp only [doPull, h]
      rw [pullLoop_eq_chunksOf]
    · intro c hc
      have hlen := chunksOf_dropLast data c hc
      exact ⟨hlen, b64_encode_no_pad c (by rw [hlen]; decide)⟩
    · intro hnil
      subst hnil
      simp [doPull, h, pullLoop_nil]

theorem C3_pull_stream_witness :
    (doPull ⟨[("/data/a", [5, 6])], false, false⟩ "a").out
        = (chunksOf [5, 6]).map (fun c => Frag.buf (base64Encode c))
            ++ [Frag.str ("\n")] ∧
    (doPull ⟨[], false, false⟩ "a").out = [Frag.err enoentText] :=
  ⟨((C3_pull_stream ⟨[("/data/a", [5, 6])], false, false⟩ "a").2.2 [5, 6]
      (by decide)).1,
   (C3_pull_stream ⟨[], false, false⟩ "a").2.1 (by decide)⟩

/-- Claim C7: `doRemove` emits `"OK\n"` unconditionally after the deletion
attempt, preceded by an error fragment exactly when the deletion failed
(the path was absent); a remove on a nonexistent path is not fatal and
still emits `"OK\n"`. -/
theorem C7_remove_reporting (st : Session) (f : String) :
    (doRemove st f).fatal = false ∧
    (alGet st.files (fsPath f) = none →
      (doRemove st f).out = [Frag.err enoentText, Frag.str ("OK\n")]) ∧
    (∀ d, alGet st.files (fsPath f) = some d →
      (doRemove st f).out = [Frag.str ("OK\n")]) := by
  refine ⟨?_, ?_, ?_⟩
  · cases h : alGet st.files (fsPath f) <;> simp [doRemove, h]
  · intro h; simp [doRemove, h]
  · intro d h; simp [doRemove, h]

theorem C7_remove_reporting_witness :
    (doRemove ⟨[], false, false⟩ "gone").out
        = [Frag.err enoentText, Frag.str ("OK\n")] ∧
    (doRemove ⟨[("/data/x", [1])], false, false⟩ "x").out
        = [Frag.str ("OK\n")] :=
  ⟨(C7_remove_reporting ⟨[], false, false⟩ "gone").2.1 (by decide),
   (C7_remove_reporting ⟨[("/data/x", [1])], false, false⟩ "x").2.2 [1]
     (by decide)⟩

/-- Claim C2: along the commit step sequence (close, ensurePath, remove,
sanity re-open, rename), whether the run completes or stops at any failure
point, the destination path only ever holds the unmodified prior contents,
is absent, or — only after the terminal rename — the complete staged
upload; never any other (partially written) value.  The final trace state
is the filesystem `commitFilePush` actually returns. -/
theorem C2_commit_atomic (files : FsMap) (w fin : Bool) (f : String)
    (env : CommitEnv) :
    (commitFsTrace files f env).getLast?
        = some (commitFilePush ⟨files, w, fin⟩ f env).session.files ∧
    ∀ m ∈ commitFsTrace files f env,
      alGet m (fsPath f) = alGet files (fsPath f) ∨
      alGet m (fsPath f) = none ∨
      alGet m (fsPath f) = alGet (alErase files (fsPath f)) workingFilename := by
  rcases env with ⟨eok, rok⟩
  cases halget : alGet (alErase files (fsPath f)) workingFilename with
  | none =>
      constructor
      · simp only [commitFsTrace, commitFilePush, halget]
        rfl
      · intro m hm
        simp only [commitFsTrace, halget] at hm
        simp only [List.mem_cons, List.mem_singleton] at hm
        rcases hm with rfl | rfl | rfl | hm
        · left; rfl
        · left; rfl
        · right; left; exact alGet_alErase_self _ _
        · simp at hm
  | some staged =>
      cases rok with
      | false =>
          constructor
          · simp only [commitFsTrace, commitFilePush, halget]
            rfl
          · intro m hm
            simp only [commitFsTrace, halget] at hm
            simp at hm
            rcases hm with rfl | rfl
            · left; rfl
            · right; left; exact alGet_alErase_self _ _
      | true =>
          constructor
          · simp only [commitFsTrace, commitFilePush, halget]
            rfl
          · intro m hm
            simp only [commitFsTrace, halget] at hm
            simp at hm
            rcases hm with rfl | rfl | rfl
            · left; rfl
            · right; left; exact alGet_alErase_self _ _
            · right; right
              simp [alGet_alSet_self, halget]

theorem C2_commit_atomic_witness :
    (commitFsTrace [(workingFilename, [9])] "a" ⟨true, true⟩).getLast?
        = some (commitFilePush ⟨[(workingFilename, [9])], true, false⟩ "a"
            ⟨true, true⟩).session.files ∧
    (alGet (alErase [(workingFilename, [9])] (fsPath "a")) (fsPath "a")
        = alGet [(workingFilename, [9])] (fsPath "a") ∨
     alGet (alErase [(workingFilename, [9])] (fsPath "a")) (fsPath "a") = none ∨
     alGet (alErase [(workingFilename, [9])] (fsPath "a")) (fsPath "a")
        = alGet (alErase [(workingFilename, [9])] (fsPath "a")) workingFilename) :=
  ⟨(C2_commit_atomic [(workingFilename, [9])] true false "a" ⟨true, true⟩).1,
   (C2_commit_atomic [(workingFilename, [9])] true false "a" ⟨true, true⟩).2
     (alErase [(workingFilename, [9])] (fsPath "a")) (by decide)⟩

/-- Claim C4 counterexample: the claim says every failure is reported as an
error fragment with the operation returning non-fatally, in particular at
`commitFilePush`'s sanity re-open.  But with no working file present the
sanity re-open fails and `assert(fd >= 0)` aborts the operation fatally. -/
theorem C4_error_policy_counterexample :
    (commitFilePush ⟨[], false, false⟩ "a.txt" ⟨true, true⟩).fatal = true := by
  decide

/-- Claim C4 as amended: failures of `doPull` open, `addFileChunk` write,
`doRemove`, `doStats` capacity query, and `commitFilePush` directory
creation or rename are reported to the sink and return non-fatally — but
`commitFilePush`'s sanity re-open does NOT follow the policy: when the
working file is missing it aborts fatally via `assert` instead of
reporting. -/
theorem C4_amended_error_policy :
    (∀ st f, alGet st.files (fsPath f) = none →
      (doPull st f).out = [Frag.err enoentText] ∧
      (doPull st f).fatal = false ∧ (doPull st f).session = st) ∧
    (∀ st buffer, st.workingOpen = true →
      (addFileChunk st buffer none).out = [Frag.err ioErrText] ∧
      (addFileChunk st buffer none).fatal = false ∧
      (addFileChunk st buffer none).session = st) ∧
    (∀ st f, (doRemove st f).fatal = false) ∧
    (∀ st geo, (doStats st geo).fatal = false) ∧
    (∀ st, (doStats st none).out = [Frag.err ("Cannot determine free space")]) ∧
    (∀ st f env staged,
      alGet (alErase st.files (fsPath f)) workingFilename = some staged →
      (commitFilePush st f env).fatal = false) ∧
    (∀ st f env,
      alGet (alErase st.files (fsPath f)) workingFilename = none →
      (commitFilePush st f env).fatal = true) := by
  refine ⟨?_, ?_, ?_, ?_, ?_, ?_, ?_⟩
  · intro st f h
    simp [doPull, h]
  · intro st buffer h
    simp [addFileChunk, h]
  · intro st f
    cases h : alGet st.files (fsPath f) <;> simp [doRemove, h]
  · intro st geo
    cases geo <;> simp [doStats]
  · intro st
    simp [doStats]
  · intro st f env staged h
    simp only [commitFilePush, h]
    cases env.renameOk <;> simp
  · intro st f env h
    simp [commitFilePush, h]

theorem C4_amended_error_policy_witness :
    (doPull ⟨[], false, false⟩ "a").out = [Frag.err enoentText] ∧
    (addFileChunk ⟨[], true, false⟩ [1] none).out = [Frag.err ioErrText] ∧
    (commitFilePush ⟨[(workingFilename, [2])], true, false⟩ "a"
      ⟨true, true⟩).fatal = false ∧
    (commitFilePush ⟨[], false, false⟩ "b" ⟨true, true⟩).fatal = true :=
  ⟨(C4_amended_error_policy.1 ⟨[], false, false⟩ "a" (by decide)).1,
   (C4_amended_error_policy.2.1 ⟨[], true, false⟩ [1] (by decide)).1,
   C4_amended_error_policy.2.2.2.2.2.1 ⟨[(workingFilename, [2])], true, false⟩
     "a" ⟨true, true⟩ [2] (by decide),
   C4_amended_error_policy.2.2.2.2.2.2 ⟨[], false, false⟩ "b" ⟨true, true⟩
     (by decide)⟩

/-- Claim C5 counterexample: the claim says commit emits `"OK\n"` only when
neither directory creation nor rename fails.  But with the working file
staged and directory creation failing, `commitFilePush` emits an error
fragment AND still emits `"OK\n"` — they are not mutually exclusive. -/
theorem C5_commit_ok_counterexample :
    Frag.err ("Cannot create path " ++ fsPath "a.txt")
        ∈ (commitFilePush ⟨[(workingFilename, [1, 2])], true, false⟩ "a.txt"
            ⟨false, true⟩).out ∧
    Frag.str ("OK\n")
        ∈ (commitFilePush ⟨[(workingFilename, [1, 2])], true, false⟩ "a.txt"
            ⟨false, true⟩).out := by
  decide

/-- Claim C5 as amended: when the sanity check passes, `commitFilePush`
emits an error fragment exactly when directory creation or the rename
fails, and emits `"OK\n"` unconditionally afterwards — error and OK are
NOT mutually exclusive for commit. -/
theorem C5_amended_commit_reporting (st : Session) (f : String)
    (env : CommitEnv) (staged : List Nat)
    (h : alGet (alErase st.files (fsPath f)) workingFilename = some staged) :
    (commitFilePush st f env).fatal = false ∧
    Frag.str ("OK\n") ∈ (commitFilePush st f env).out ∧
    ((∃ e, Frag.err e ∈ (commitFilePush st f env).out)
      ↔ (env.ensureOk = false ∨ env.renameOk = false)) := by
  rcases env with ⟨eok, rok⟩
  simp only [commitFilePush, h]
  cases eok <;> cases rok <;> simp

theorem C5_amended_commit_reporting_witness :
    (commitFilePush ⟨[(workingFilename, [3])], true, false⟩ "a"
      ⟨true, true⟩).fatal = false ∧
    Frag.str ("OK\n") ∈ (commitFilePush ⟨[(workingFilename, [3])], true, false⟩
      "a" ⟨true, true⟩).out ∧
    ((∃ e, Frag.err e ∈ (commitFilePush ⟨[(workingFilename, [3])], true, false⟩
      "a" ⟨true, true⟩).out)
      ↔ ((⟨true, true⟩ : CommitEnv).ensureOk = false
          ∨ (⟨true, true⟩ : CommitEnv).renameOk = false)) :=
  C5_amended_commit_reporting ⟨[(workingFilename, [3])], true, false⟩ "a"
    ⟨true, true⟩ [3] (by decide)

/-- Claim C6 counterexample: the claim says a short write (fewer bytes
written than requested) emits an error fragment.  But the code only checks
`written < 0`: writing 1 of 2 requested bytes emits nothing (and neither
aborts nor closes the handle). -/
theorem C6_short_write_counterexample :
    (addFileChunk ⟨[(workingFilename, [])], true, false⟩ [7, 8] (some 1)).out
        = [] ∧
    (addFileChunk ⟨[(workingFilename, [])], true, false⟩ [7, 8]
        (some 1)).fatal = false ∧
    (addFileChunk ⟨[(workingFilename, [])], true, false⟩ [7, 8]
        (some 1)).session.workingOpen = true := by
  decide

/-- Claim C6 as amended: with a pending upload handle, `addFileChunk`
emits an error fragment exactly when the write call fails (returns
negative); a short but non-negative write is silently accepted; in every
case the operation neither aborts nor closes the pending handle. -/
theorem C6_amended_chunk_reporting (st : Session) (buffer : List Nat)
    (written : Option Nat) (hw : st.workingOpen = true) :
    (addFileChunk st buffer written).fatal = false ∧
    (addFileChunk st buffer written).session.workingOpen = true ∧
    (addFileChunk st buffer written).out
        = (if written = none then [Frag.err ioErrText] else []) := by
  cases written with
  | none => simp [addFileChunk, hw]
  | some n =>
      cases halget : alGet st.files workingFilename <;>
        simp [addFileChunk, hw, halget]

theorem C6_amended_chunk_reporting_witness :
    (addFileChunk ⟨[], true, false⟩ [4, 5] (some 2)).fatal = false ∧
    (addFileChunk ⟨[], true, false⟩ [4, 5] (some 2)).session.workingOpen
        = true ∧
    (addFileChunk ⟨[], true, false⟩ [4, 5] (some 2)).out
        = (if (some 2 : Option Nat) = none then [Frag.err ioErrText] else []) :=
  C6_amended_chunk_reporting ⟨[], true, false⟩ [4, 5] (some 2) (by decide)

/-! ## Timer bridge lemmas and claims -/

/-- One fire+drain round of a live auto-reload timer with a registered
callback and an empty queue: the callback is invoked once and nothing else
changes. -/
theorem fireDrain_auto (st : TimerState) (h cb : Nat)
    (ht : alGet st.timers h = some true)
    (hr : alGet st.registry h = some cb)
    (hq : st.queue = []) :
    fireDrain st h = { st with queue := [], calls := st.calls ++ [cb] } := by
  simp only [fireDrain, timerCallback, ht]
  simp only [Bool.not_true, if_true]
  simp only [drainOne, hq, List.nil_append]
  simp only [dukInvokeTimer, hr]
  rfl

theorem iterate_auto (h cb : Nat) :
    ∀ (N : Nat) (st : TimerState),
      alGet st.timers h = some true → alGet st.registry h = some cb →
      st.queue = [] →
      (iterateFireDrain st h N).registry = st.registry ∧
      (iterateFireDrain st h N).timers = st.timers ∧
      (iterateFireDrain st h N).queue = []
  | 0, _, _, _, hq => ⟨rfl, rfl, hq⟩
  | N + 1, st, ht, hr, hq => by
      rw [iterateFireDrain, fireDrain_auto st h cb ht hr hq]
      exact iterate_auto h cb N
        { st with queue := [], calls := st.calls ++ [cb] } ht hr rfl

/-- Claim C8: `createTimer` rejects a zero period by raising the error
before any native timer is created: `dukCreateTimer` with `periodMs = 0`
returns the error and leaves the whole timer state (native timers,
registry, queue) unchanged. -/
theorem C8_zero_period_rejected (st : TimerState) (oneShot : Bool)
    (cb h : Nat) :
    dukCreateTimer st 0 oneShot cb h = (st, Except.error timerErrText) := by
  simp [dukCreateTimer, createTimer]

/-- Claim C9: a firing enqueues `(timerId, shouldCleanup)` with
`shouldCleanup` true iff the timer is one-shot, deleting a one-shot's
native resource eagerly in the firing context; the drain invokes the
registered callback with no arguments and removes the registry entry
afterwards only if `shouldCleanup`; hence an auto-reload timer still has
exactly one registry entry after N fire+drain rounds. -/
theorem C9_firing_protocol :
    (∀ st h, alGet st.timers h = some false →
      timerCallback st h
          = { st with queue := st.queue ++ [(h, true)],
                      timers := alErase st.timers h }) ∧
    (∀ st h, alGet st.timers h = some true →
      timerCallback st h = { st with queue := st.queue ++ [(h, false)] }) ∧
    (∀ st id cl cb, alGet st.registry id = some cb →
      dukInvokeTimer st id cl
          = (if cl then
              ({ st with calls := st.calls ++ [cb],
                         registry := alErase st.registry id }, Except.ok ())
            else ({ st with calls := st.calls ++ [cb] }, Except.ok ()))) ∧
    (∀ st h cb N, alGet st.timers h = some true →
      alGet st.registry h = some cb → st.queue = [] →
      alCountKey st.registry h = 1 →
      alCountKey (iterateFireDrain st h N).registry h = 1) := by
  refine ⟨?_, ?_, ?_, ?_⟩
  · intro st h ht
    simp [timerCallback, ht]
  · intro st h ht
    simp [timerCallback, ht]
  · intro st id cl cb hr
    cases cl <;> simp [dukInvokeTimer, hr]
  · intro st h cb N ht hr hq hcount
    rw [(iterate_auto h cb N st ht hr hq).1]
    exact hcount

theorem C9_firing_protocol_witness :
    alCountKey (iterateFireDrain ⟨[(5, true)], [(5, 9)], [], []⟩ 5 3).registry 5
        = 1 ∧
    timerCallback ⟨[(4, false)], [(4, 7)], [], []⟩ 4
        = ⟨[], [(4, 7)], [(4, true)], []⟩ := by
  constructor
  · exact C9_firing_protocol.2.2.2 ⟨[(5, true)], [(5, 9)], [], []⟩ 5 9 3
      (by decide) (by decide) rfl (by decide)
  · rw [C9_firing_protocol.1 ⟨[(4, false)], [(4, 7)], [], []⟩ 4 (by decide)]
    decide

/-- Claim C10: draining a deferred invocation whose timerId is no longer
registered raises a script error (the registry value must be callable)
with no callback run, no cleanup and no state change; `dukDeleteTimer` on
an id absent from the registry changes neither the registry nor the
native timers. -/
theorem C10_stale_id (st : TimerState) (id : Nat)
    (h : alGet st.registry id = none) :
    (∀ cl, dukInvokeTimer st id cl = (st, Except.error ("callable required"))) ∧
    dukDeleteTimer st id = st := by
  constructor
  · intro cl
    simp [dukInvokeTimer, h]
  · simp [dukDeleteTimer, h]

theorem C10_stale_id_witness :
    dukInvokeTimer ⟨[], [], [], []⟩ 3 true
        = (⟨[], [], [], []⟩, Except.error ("callable required")) ∧
    dukDeleteTimer ⟨[], [], [], []⟩ 3 = ⟨[], [], [], []⟩ :=
  ⟨(C10_stale_id ⟨[], [], [], []⟩ 3 (by decide)).1 true,
   (C10_stale_id ⟨[], [], [], []⟩ 3 (by decide)).2⟩
